import Mathlib

/-!
Verification of the cost-allocation and coverage-consistency subsystem.

Shallow embedding of the pipeline's core modules:
* `src/allocation.py`  — Hare-Niemeyer rounding, basis resolution, charge allocation
* `src/mart_pnl.py`    — P&L waterfall builders and coverage-flag propagation
* `src/period_close.py`— period close / reopen / ingestion gate
* `src/coverage.py`    — coverage classification per (domain, period)
* `src/config.py`      — `is_domain_required`

Numeric values (Python floats) are modelled as rationals `ℚ` (exact
arithmetic); SQL NULL / Python None becomes `Option`; raised exceptions
become `Except String`.
-/

namespace Auto

/-- Python's built-in `round` (banker's rounding, round-half-to-even),
as used by `largest_fraction_round` for `round(total * factor)`. -/
def pyround (x : ℚ) : ℤ :=
  let f : ℤ := ⌊x⌋
  let r : ℚ := x - f
  if r < 1/2 then f
  else if 1/2 < r then f + 1
  else if f % 2 = 0 then f else f + 1

/-- The comparison key `(-remainders[i], i)` used by the Python
`sorted(range(len(remainders)), key=lambda i: (-remainders[i], i))`:
descending fractional remainder, ties broken by ascending index. -/
def remOrder (remainders : List ℚ) (i j : ℕ) : Prop :=
  remainders.getD j 0 < remainders.getD i 0 ∨
    (remainders.getD i 0 = remainders.getD j 0 ∧ i ≤ j)

instance (remainders : List ℚ) : DecidableRel (remOrder remainders) := by
  intro i j; unfold remOrder; infer_instance

/-- The in-place remainder-distribution loop:
`for i in range(min(int(shortfall), len(indices))): floored[indices[i]] += 1`. -/
def bump (floored : List ℤ) (chosen : List ℕ) : List ℤ :=
  chosen.foldl (fun acc i => acc.set i (acc.getD i 0 + 1)) floored

/-- `largest_fraction_round(raw_amounts, total, decimals)` from
`src/allocation.py`: Hare-Niemeyer rounding.  Floors each scaled amount,
then distributes the shortfall one unit at a time to the indices with the
largest fractional remainder, ties broken by ascending index. -/
def largest_fraction_round (raw_amounts : List ℚ) (total : ℚ) (decimals : ℕ) : List ℚ :=
  if raw_amounts.isEmpty then []
  else
    let factor : ℚ := 10 ^ decimals
    let total_int : ℤ := pyround (total * factor)
    let floored : List ℤ := raw_amounts.map fun a => ⌊a * factor⌋
    let remainders : List ℚ := raw_amounts.map fun a => a * factor - (⌊a * factor⌋ : ℤ)
    let floored_sum : ℤ := floored.sum
    let shortfall : ℤ := total_int - floored_sum
    let floored' : List ℤ :=
      if 0 < shortfall then
        let indices : List ℕ :=
          (List.range raw_amounts.length).insertionSort (remOrder remainders)
        bump floored (indices.take (min shortfall.toNat raw_amounts.length))
      else floored
    floored'.map fun v : ℤ => (v : ℚ) / factor

/-- One allocation-target row.  `key` encodes the configured determinism
sort-key tuple (`period, charge_type, warehouse_id, channel_store_id,
item_id, lot_id, business_key`); `vals` holds the basis-column cells of the
row (`none` = polars null). -/
structure Row where
  key : ℕ
  vals : List (String × Option ℚ)
deriving DecidableEq, Repr

/-- Cell of column `c` in row `r` (null when the column is absent). -/
def Row.get (r : Row) (c : String) : Option ℚ :=
  (List.lookup c r.vals).bind id

/-- A targets dataframe: declared columns plus rows. -/
structure Frame where
  cols : List String
  rows : List Row
deriving DecidableEq, Repr

/-- The column `targets[basis]` as a list of cells. -/
def Frame.col (t : Frame) (b : String) : List (Option ℚ) :=
  t.rows.map fun r => r.get b

/-- `col.null_count()`. -/
def nullCount (col : List (Option ℚ)) : ℕ :=
  (col.filter fun o => o.isNone).length

/-- First usability condition in `resolve_basis`:
`col.null_count() == 0 and (col != 0).all()`. -/
def basisCondAll (col : List (Option ℚ)) : Bool :=
  nullCount col = 0 && col.all fun o => o ≠ some 0

/-- Second usability condition in `resolve_basis`:
`col.null_count() < col.len() and col.drop_nulls().filter(col.drop_nulls() != 0).len() > 0`. -/
def basisCondSome (col : List (Option ℚ)) : Bool :=
  nullCount col < col.length &&
    0 < (((col.filterMap id).filter fun v => v ≠ 0).length)

/-- `resolve_basis(charge_type, targets, config)` from `src/allocation.py`,
with the config already resolved to the basis priority list: returns the
first basis present as a column whose cells satisfy either usability
condition, else `none`. -/
def resolve_basis (basis_priority : List String) (targets : Frame) : Option String :=
  basis_priority.find? fun basis =>
    basis ∈ targets.cols &&
      (basisCondAll (targets.col basis) || basisCondSome (targets.col basis))

/-- The `ValueError` message raised by `allocate_charge` when no basis resolves. -/
def noBasisMsg (charge_type : String) : String :=
  "Cannot resolve allocation basis for charge_type=" ++ charge_type

/-- The deterministic sort step of `allocate_charge`:
`available_sort_keys = [k for k in sort_keys if k in targets.columns]`,
and `targets = targets.sort(available_sort_keys)` when non-empty.
`Row.key` encodes the configured sort-key tuple. -/
def sortTargets (sort_keys : List String) (targets : Frame) : List Row :=
  let available_sort_keys := sort_keys.filter fun k => k ∈ targets.cols
  if available_sort_keys.isEmpty then targets.rows
  else targets.rows.insertionSort fun a b => a.key ≤ b.key

/-- The proportional-split step of `allocate_charge`: equal distribution
when all basis values sum to zero, else `raw[i] = basis[i]/Σ basis * amount`.
(`basis_values.length` is `targets.height`.) -/
def computeRaw (amount : ℚ) (basis_values : List ℚ) : List ℚ :=
  let total_basis : ℚ := basis_values.sum
  if total_basis = 0 then
    List.replicate basis_values.length (amount / basis_values.length)
  else basis_values.map fun v => v / total_basis * amount

/-- `allocate_charge` from `src/allocation.py`, restricted to the data it
actually computes with: the charge `amount`, rounding `decimals`
(`config.allocation["rounding"]["decimals"]`, default 0), the resolved
basis priority, the determinism sort keys and the targets frame.  Returns
the sorted target rows paired with their `allocated_amount` column, or the
`ValueError` when no basis resolves. -/
def allocate_charge (charge_type : String) (amount : ℚ) (decimals : ℕ)
    (basis_priority : List String) (sort_keys : List String) (targets : Frame) :
    Except String (List (Row × ℚ)) :=
  if targets.rows.isEmpty then .ok []
  else
    match resolve_basis basis_priority targets with
    | none => .error (noBasisMsg charge_type)
    | some basis =>
      let sorted := sortTargets sort_keys targets
      let basis_values : List ℚ := sorted.map fun r => (r.get basis).getD 0
      let raw_amounts : List ℚ := computeRaw amount basis_values
      let allocated := largest_fraction_round raw_amounts amount decimals
      .ok (sorted.zip allocated)

/-! ### Arithmetic helper lemmas for the rounding algorithm -/

lemma pyround_intCast (z : ℤ) : pyround (z : ℚ) = z := by
  unfold pyround
  simp

lemma sum_map_cast_div (l : List ℤ) (c : ℚ) :
    (l.map fun v : ℤ => (v : ℚ) / c).sum = (l.sum : ℚ) / c := by
  induction l with
  | nil => simp
  | cons a t ih =>
    rw [List.map_cons, List.sum_cons, List.sum_cons, Int.cast_add, add_div, ih]

lemma sum_floor_le (l : List ℚ) : (((l.map fun a => ⌊a⌋).sum : ℤ) : ℚ) ≤ l.sum := by
  induction l with
  | nil => simp
  | cons a t ih =>
    rw [List.map_cons, List.sum_cons, List.sum_cons, Int.cast_add]
    exact add_le_add (Int.floor_le a) ih

lemma sum_le_floor_add_length (l : List ℚ) :
    l.sum ≤ (((l.map fun a => ⌊a⌋).sum : ℤ) : ℚ) + l.length := by
  induction l with
  | nil => simp
  | cons a t ih =>
    rw [List.map_cons, List.sum_cons, List.sum_cons, List.length_cons, Int.cast_add]
    have ha : a ≤ (⌊a⌋ : ℚ) + 1 := le_of_lt (Int.lt_floor_add_one a)
    have hc : ((t.length + 1 : ℕ) : ℚ) = (t.length : ℚ) + 1 := by push_cast; ring
    rw [hc]
    linarith [ih]

lemma sum_set_getD_add_one (l : List ℤ) (i : ℕ) (h : i < l.length) :
    (l.set i (l.getD i 0 + 1)).sum = l.sum + 1 := by
  induction l generalizing i with
  | nil => simp at h
  | cons a t ih =>
    cases i with
    | zero => simp [List.getD]; ring
    | succ j =>
      have hj : j < t.length := by simpa using h
      simp only [List.set_cons_succ, List.sum_cons, List.getD_cons_succ, ih j hj]
      ring

lemma bump_length (chosen : List ℕ) (l : List ℤ) : (bump l chosen).length = l.length := by
  induction chosen generalizing l with
  | nil => rfl
  | cons i c ih => simp only [bump, List.foldl_cons] at *; rw [ih, List.length_set]

lemma bump_sum (chosen : List ℕ) (l : List ℤ)
    (h : ∀ i ∈ chosen, i < l.length) :
    (bump l chosen).sum = l.sum + chosen.length := by
  induction chosen generalizing l with
  | nil => simp [bump]
  | cons i c ih =>
    have hi : i < l.length := h i (List.mem_cons_self i c)
    have hrest : ∀ j ∈ c, j < (l.set i (l.getD i 0 + 1)).length := by
      intro j hj; rw [List.length_set]; exact h j (List.mem_cons_of_mem i hj)
    simp only [bump, List.foldl_cons] at *
    rw [ih _ hrest, sum_set_getD_add_one l i hi, List.length_cons]
    push_cast
    ring

lemma lfr_length (raw : List ℚ) (total : ℚ) (d : ℕ) :
    (largest_fraction_round raw total d).length = raw.length := by
  simp only [largest_fraction_round]
  by_cases h : raw.isEmpty
  · rw [if_pos h, List.isEmpty_iff.mp h]
  · rw [if_neg h, List.length_map]
    split
    · rw [bump_length, List.length_map]
    · rw [List.length_map]

/-- Core conservation property of largest-remainder rounding: if the raw
amounts sum to `total` and `total` is representable at `d` decimals, the
rounded amounts sum to `total` exactly. -/
lemma lfr_sum (raw : List ℚ) (total : ℚ) (d : ℕ) (z : ℤ)
    (hne : raw ≠ []) (hsum : raw.sum = total) (hz : total * 10 ^ d = (z : ℚ)) :
    (largest_fraction_round raw total d).sum = total := by
  have hfac : (10 : ℚ) ^ d ≠ 0 := by positivity
  have htot : total = (z : ℚ) / 10 ^ d := by
    field_simp at hz ⊢
    linarith [hz]
  unfold largest_fraction_round
  rw [if_neg (by simpa [List.isEmpty_iff] using hne)]
  set m : List ℚ := raw.map fun a => a * 10 ^ d with hm
  have hmap : (raw.map fun a => (⌊a * 10 ^ d⌋ : ℤ)) = m.map fun x => ⌊x⌋ := by
    rw [hm, List.map_map]; rfl
  have hmsum : m.sum = (z : ℚ) := by
    rw [hm]
    have := List.sum_map_mul_right raw (fun a => a) ((10 : ℚ) ^ d)
    simpa [hsum, hz] using this
  have hmlen : m.length = raw.length := by rw [hm, List.length_map]
  set F : ℤ := ((raw.map fun a => (⌊a * 10 ^ d⌋ : ℤ))).sum with hF
  have hFle : (F : ℚ) ≤ (z : ℚ) := by
    rw [hF, hmap, ← hmsum]; exact sum_floor_le m
  have hFge : (z : ℚ) ≤ (F : ℚ) + raw.length := by
    rw [hF, hmap, ← hmsum, ← hmlen]; exact sum_le_floor_add_length m
  have hFle' : F ≤ z := by exact_mod_cast hFle
  have hFge' : z ≤ F + raw.length := by exact_mod_cast hFge
  have hround : pyround (total * 10 ^ d) = z := by rw [hz, pyround_intCast]
  simp only [hround, hF]
  set s : ℤ := z - F with hs
  by_cases hpos : 0 < s
  · rw [if_pos (by simpa [hs] using hpos)]
    have hsle : s ≤ (raw.length : ℤ) := by omega
    have hstn : (s.toNat : ℤ) = s := Int.toNat_of_nonneg (le_of_lt hpos)
    have hstn_le : s.toNat ≤ raw.length := by omega
    set indices := (List.range raw.length).insertionSort
      (remOrder (raw.map fun a => a * 10 ^ d - (⌊a * 10 ^ d⌋ : ℤ))) with hidx
    have hperm : indices.Perm (List.range raw.length) := List.perm_insertionSort _ _
    have hilen : indices.length = raw.length := by
      rw [hperm.length_eq, List.length_range]
    have hmem : ∀ i ∈ indices, i < raw.length := by
      intro i hi
      exact List.mem_range.mp (hperm.mem_iff.mp hi)
    have hminval : min s.toNat raw.length = s.toNat := min_eq_left hstn_le
    have hchosen_mem : ∀ i ∈ indices.take (min s.toNat raw.length),
        i < (raw.map fun a => (⌊a * 10 ^ d⌋ : ℤ)).length := by
      intro i hi
      rw [List.length_map]
      exact hmem i ((List.take_sublist _ _).mem hi)
    have hchosen_len : (indices.take (min s.toNat raw.length)).length = s.toNat := by
      rw [List.length_take, hilen, hminval, min_eq_left hstn_le]
    rw [sum_map_cast_div, bump_sum _ _ hchosen_mem, hchosen_len, htot]
    congr 1
    have hgoal : (List.map (fun a => ⌊a * (10 : ℚ) ^ d⌋) raw).sum + (s.toNat : ℤ) = z := by
      rw [← hF]; omega
    exact_mod_cast hgoal
  · rw [if_neg (by simpa [hs] using hpos)]
    have hFz : F = z := by omega
    rw [sum_map_cast_div, ← hF, hFz, htot]

lemma sum_map_div_rat (l : List ℚ) (c : ℚ) :
    (l.map fun v => v / c).sum = l.sum / c := by
  induction l with
  | nil => simp
  | cons a t ih => rw [List.map_cons, List.sum_cons, List.sum_cons, add_div, ih]

lemma computeRaw_sum (amount : ℚ) (bv : List ℚ) (h : bv ≠ []) :
    (computeRaw amount bv).sum = amount := by
  unfold computeRaw
  by_cases h0 : bv.sum = 0
  · rw [if_pos h0, List.sum_replicate, nsmul_eq_mul]
    have hn : (bv.length : ℚ) ≠ 0 := by
      have := List.length_pos.mpr h
      positivity
    field_simp
  · rw [if_neg h0]
    rw [List.sum_map_mul_right bv (fun v => v / bv.sum) amount, sum_map_div_rat,
      div_self h0, one_mul]

lemma computeRaw_length (amount : ℚ) (bv : List ℚ) :
    (computeRaw amount bv).length = bv.length := by
  simp only [computeRaw]
  split
  · rw [List.length_replicate]
  · rw [List.length_map]

lemma sortTargets_length (sort_keys : List String) (targets : Frame) :
    (sortTargets sort_keys targets).length = targets.rows.length := by
  simp only [sortTargets]
  split
  · rfl
  · exact (List.perm_insertionSort _ _).length_eq

/-- Claim C1: for every charge allocated against a non-empty target set,
the per-target allocated amounts returned by `allocate_charge` (via
`largest_fraction_round`) sum exactly to the charge's `amount` at the
configured decimal precision (hypothesis `hprec`: `amount` is
representable at `decimals` decimals), for any number of targets, any
resolved basis, any precision, and degenerate all-zero bases (equal-split
fallback). -/
theorem allocate_charge_conservation
    (charge_type : String) (amount : ℚ) (decimals : ℕ)
    (basis_priority sort_keys : List String) (targets : Frame)
    (out : List (Row × ℚ))
    (hne : targets.rows ≠ [])
    (hprec : ∃ z : ℤ, amount * 10 ^ decimals = (z : ℚ))
    (hout : allocate_charge charge_type amount decimals basis_priority sort_keys targets
      = .ok out) :
    (out.map Prod.snd).sum = amount := by
  obtain ⟨z, hz⟩ := hprec
  unfold allocate_charge at hout
  rw [if_neg (by simpa [List.isEmpty_iff] using hne)] at hout
  split at hout
  · exact absurd hout (by simp)
  · rename_i basis heq
    injection hout with hout
    set sorted := sortTargets sort_keys targets with hsorted
    have hslen : sorted.length = targets.rows.length := sortTargets_length _ _
    have hspos : 0 < sorted.length := by
      rw [hslen]; exact List.length_pos.mpr hne
    set bv : List ℚ := sorted.map fun r => (r.get basis).getD 0 with hbv
    have hbvlen : bv.length = sorted.length := List.length_map _ _
    have hbvne : bv ≠ [] := by
      apply List.ne_nil_of_length_pos; rw [hbvlen]; exact hspos
    set raw := computeRaw amount bv with hraw
    have hrawne : raw ≠ [] := by
      apply List.ne_nil_of_length_pos; rw [hraw, computeRaw_length, hbvlen]; exact hspos
    have hrawsum : raw.sum = amount := computeRaw_sum amount bv hbvne
    have hallocsum : (largest_fraction_round raw amount decimals).sum = amount :=
      lfr_sum raw amount decimals z hrawne hrawsum hz
    have halloclen : (largest_fraction_round raw amount decimals).length ≤ sorted.length := by
      rw [lfr_length, hraw, computeRaw_length, hbvlen]
    rw [← hout, List.map_snd_zip _ _ halloclen, hallocsum]

/-- Concrete targets frame for the C1 witness: quantities `[3, 5, 2]`. -/
def witTargets : Frame :=
  ⟨["item", "qty"],
   [⟨1, [("qty", some 3)]⟩, ⟨2, [("qty", some 5)]⟩, ⟨3, [("qty", some 2)]⟩]⟩

/-- Output of `allocate_charge` on `witTargets` for amount 1000, 0 decimals. -/
def witOut : List (Row × ℚ) :=
  [(⟨1, [("qty", some 3)]⟩, 300), (⟨2, [("qty", some 5)]⟩, 500),
   (⟨3, [("qty", some 2)]⟩, 200)]

/-- Witness for C1: allocating 1000 (0 decimals) across quantities
`[3, 5, 2]` yields amounts summing to 1000. -/
theorem allocate_charge_conservation_witness :
    (witOut.map Prod.snd).sum = 1000 :=
  allocate_charge_conservation "LAST_MILE_PARCEL" 1000 0 ["qty"] ["item"] witTargets
    witOut (by decide) ⟨1000, by norm_num⟩ (by
      norm_num [allocate_charge, resolve_basis, basisCondAll, basisCondSome, nullCount,
        Frame.col, Row.get, sortTargets, computeRaw, largest_fraction_round, pyround, bump,
        remOrder, List.insertionSort, List.orderedInsert, witTargets, witOut,
        List.lookup, List.filter, List.filterMap])

/-! ### Determinism of allocation -/

instance (rem : List ℚ) : IsTotal ℕ (remOrder rem) :=
  ⟨by
    intro i j
    rcases lt_trichotomy (rem.getD i 0) (rem.getD j 0) with h | h | h
    · exact Or.inr (Or.inl h)
    · rcases Nat.le_total i j with hij | hij
      · exact Or.inl (Or.inr ⟨h, hij⟩)
      · exact Or.inr (Or.inr ⟨h.symm, hij⟩)
    · exact Or.inl (Or.inl h)⟩

instance (rem : List ℚ) : IsTrans ℕ (remOrder rem) :=
  ⟨by
    intro i j l hij hjl
    rcases hij with h1 | ⟨e1, le1⟩
    · rcases hjl with h2 | ⟨e2, le2⟩
      · exact Or.inl (h2.trans h1)
      · exact Or.inl (e2 ▸ h1)
    · rcases hjl with h2 | ⟨e2, le2⟩
      · exact Or.inl (by rw [e1]; exact h2)
      · exact Or.inr ⟨e1.trans e2, le1.trans le2⟩⟩

lemma find?_congr {α} {f g : α → Bool} (l : List α) (h : ∀ a ∈ l, f a = g a) :
    l.find? f = l.find? g := by
  induction l with
  | nil => rfl
  | cons a t ih =>
    have ha := h a (List.mem_cons_self a t)
    cases hg : g a
    · simp only [List.find?, ha, hg]
      exact ih fun x hx => h x (List.mem_cons_of_mem a hx)
    · simp only [List.find?, ha, hg]

lemma perm_all_eq {α} {l₁ l₂ : List α} (h : l₁.Perm l₂) (p : α → Bool) :
    l₁.all p = l₂.all p := by
  rw [Bool.eq_iff_iff, List.all_eq_true, List.all_eq_true]
  exact ⟨fun H x hx => H x (h.mem_iff.mpr hx), fun H x hx => H x (h.mem_iff.mp hx)⟩

/-- `resolve_basis` only inspects column contents up to multiset equality,
so it is invariant under reordering the target rows. -/
lemma resolve_basis_perm (pr : List String) (t₁ t₂ : Frame)
    (hcols : t₁.cols = t₂.cols) (hperm : t₁.rows.Perm t₂.rows) :
    resolve_basis pr t₁ = resolve_basis pr t₂ := by
  apply find?_congr
  intro b _
  have hcol : (t₁.col b).Perm (t₂.col b) := hperm.map _
  have h1 : nullCount (t₁.col b) = nullCount (t₂.col b) := (hcol.filter _).length_eq
  have h2 : (t₁.col b).length = (t₂.col b).length := hcol.length_eq
  have h3 : basisCondAll (t₁.col b) = basisCondAll (t₂.col b) := by
    unfold basisCondAll
    rw [h1, perm_all_eq hcol]
  have h4 : basisCondSome (t₁.col b) = basisCondSome (t₂.col b) := by
    unfold basisCondSome
    rw [h1, h2, ((hcol.filterMap id).filter _).length_eq]
  rw [hcols, h3, h4]

/-- A sorted permutation of a list with pairwise-distinct sort keys is
unique: any two key-sorted orderings of the same rows coincide. -/
lemma perm_sorted_nodup_key_eq {α : Type} (k : α → ℕ) :
    ∀ l₁ l₂ : List α, l₁.Perm l₂ →
      l₁.Sorted (fun a b => k a ≤ k b) → l₂.Sorted (fun a b => k a ≤ k b) →
      (l₁.map k).Nodup → l₁ = l₂ := by
  intro l₁
  induction l₁ with
  | nil =>
    intro l₂ h _ _ _
    exact (h.symm.eq_nil).symm
  | cons a t ih =>
    intro l₂ h hs1 hs2 hnd
    cases l₂ with
    | nil => exact absurd h.length_eq (by simp)
    | cons b t₂ =>
      obtain ⟨hs1a, hs1t⟩ := List.sorted_cons.mp hs1
      obtain ⟨hs2a, hs2t⟩ := List.sorted_cons.mp hs2
      have hnd' := hnd
      rw [List.map_cons, List.nodup_cons] at hnd'
      have hab : a = b := by
        have ha2 : a ∈ b :: t₂ := h.mem_iff.mp (List.mem_cons_self a t)
        have hb1 : b ∈ a :: t := h.mem_iff.mpr (List.mem_cons_self b t₂)
        rcases List.mem_cons.mp ha2 with h1 | h1
        · exact h1
        · rcases List.mem_cons.mp hb1 with h2 | h2
          · exact h2.symm
          · exfalso
            have hkeq : k a = k b := le_antisymm (hs1a b h2) (hs2a a h1)
            exact hnd'.1 (hkeq ▸ List.mem_map_of_mem k h2)
      subst hab
      rw [ih t₂ h.cons_inv hs1t hs2t hnd'.2]

/-- The sort step gives the same row order for any two orderings of the
same target rows, when the sort keys are pairwise distinct and at least
one configured sort key is an available column. -/
lemma sortTargets_eq (sort_keys : List String) (t₁ t₂ : Frame)
    (hcols : t₁.cols = t₂.cols) (hperm : t₁.rows.Perm t₂.rows)
    (hkeys : (t₁.rows.map Row.key).Nodup)
    (havail : (sort_keys.filter fun k => k ∈ t₁.cols) ≠ []) :
    sortTargets sort_keys t₁ = sortTargets sort_keys t₂ := by
  haveI : IsTotal Row (fun a b => a.key ≤ b.key) := ⟨fun a b => Nat.le_total a.key b.key⟩
  haveI : IsTrans Row (fun a b => a.key ≤ b.key) := ⟨fun a b c h1 h2 => Nat.le_trans h1 h2⟩
  have hcond : ¬((sort_keys.filter fun k => decide (k ∈ t₁.cols)).isEmpty = true) := by
    simpa [List.isEmpty_iff] using havail
  simp only [sortTargets, ← hcols]
  rw [if_neg hcond, if_neg hcond]
  apply perm_sorted_nodup_key_eq Row.key
  · exact ((List.perm_insertionSort _ _).trans hperm).trans (List.perm_insertionSort _ _).symm
  · exact List.sorted_insertionSort _ _
  · exact List.sorted_insertionSort _ _
  · exact ((List.perm_insertionSort _ t₁.rows).map Row.key).symm.nodup hkeys

/-- Claim C4: allocating the same charge against the same (possibly
unsorted) target set twice yields identical per-target amounts and
identical remainder tie-break assignment — the targets are sorted by the
configured sort keys (assumed pairwise distinct and with at least one
sort-key column available) before computation, and remainder units are
distributed in an order sorted by descending fractional remainder with
ties broken by ascending target index, never by value comparison. -/
theorem allocate_charge_deterministic
    (charge_type : String) (amount : ℚ) (decimals : ℕ)
    (basis_priority sort_keys : List String) (t₁ t₂ : Frame)
    (hcols : t₁.cols = t₂.cols) (hperm : t₁.rows.Perm t₂.rows)
    (hkeys : (t₁.rows.map Row.key).Nodup)
    (havail : (sort_keys.filter fun k => k ∈ t₁.cols) ≠ []) :
    (allocate_charge charge_type amount decimals basis_priority sort_keys t₁ =
      allocate_charge charge_type amount decimals basis_priority sort_keys t₂) ∧
    ∀ (remainders : List ℚ) (n : ℕ),
      ((List.range n).insertionSort (remOrder remainders)).Sorted (remOrder remainders) ∧
      ((List.range n).insertionSort (remOrder remainders)).Perm (List.range n) := by
  constructor
  · have hre : resolve_basis basis_priority t₁ = resolve_basis basis_priority t₂ :=
      resolve_basis_perm basis_priority t₁ t₂ hcols hperm
    have hso : sortTargets sort_keys t₁ = sortTargets sort_keys t₂ :=
      sortTargets_eq sort_keys t₁ t₂ hcols hperm hkeys havail
    have hie : t₁.rows.isEmpty = t₂.rows.isEmpty := by
      rw [Bool.eq_iff_iff, List.isEmpty_iff, List.isEmpty_iff]
      constructor
      · intro he; exact (he ▸ hperm).symm.eq_nil
      · intro he; exact (he ▸ hperm.symm).symm.eq_nil
    unfold allocate_charge
    rw [hre, hso, hie]
  · intro rem n
    exact ⟨List.sorted_insertionSort _ _, List.perm_insertionSort _ _⟩

/-- Two orderings of the same two-target set, for the C4 witness. -/
def wFrameA : Frame := ⟨["item", "qty"], [⟨1, [("qty", some 3)]⟩, ⟨2, [("qty", some 5)]⟩]⟩

/-- The same targets as `wFrameA`, presented in the opposite order. -/
def wFrameB : Frame := ⟨["item", "qty"], [⟨2, [("qty", some 5)]⟩, ⟨1, [("qty", some 3)]⟩]⟩

/-- Witness for C4: the allocation result is identical for the two
presentations of the same target set. -/
theorem allocate_charge_deterministic_witness :
    allocate_charge "LAST_MILE_PARCEL" 10 0 ["qty"] ["item"] wFrameA =
      allocate_charge "LAST_MILE_PARCEL" 10 0 ["qty"] ["item"] wFrameB :=
  (allocate_charge_deterministic "LAST_MILE_PARCEL" 10 0 ["qty"] ["item"] wFrameA wFrameB
    rfl (List.Perm.swap (⟨2, [("qty", some 5)]⟩ : Row) (⟨1, [("qty", some 3)]⟩ : Row) [])
    (by decide) (by decide)).1

/-! ### Basis-resolution acceptance condition -/

/-- A column cell that is non-null and non-zero exists. -/
def hasNonzero (col : List (Option ℚ)) : Bool :=
  col.any fun o => match o with
    | some v => decide (v ≠ 0)
    | none => false

/-- Modelled from the spec (§4.1), for comparison with `resolve_basis`:
the acceptance predicate the spec states — "the first basis where every
target has a non-null value, OR where at least one target has a non-null,
non-zero value". -/
def specUsableBasis (t : Frame) (b : String) : Bool :=
  ((t.col b).all fun o => o.isSome) ||
    (t.col b).any fun o => match o with
      | some v => decide (v ≠ 0)
      | none => false

/-- All-zero, null-free single-basis frame distinguishing the spec's
acceptance predicate from the code's. -/
def czFrame : Frame := ⟨["qty"], [⟨1, [("qty", some 0)]⟩, ⟨2, [("qty", some 0)]⟩]⟩

lemma conds_eq_hasNonzero (col : List (Option ℚ)) (hc : col ≠ []) :
    (basisCondAll col || basisCondSome col) = hasNonzero col := by
  rw [Bool.eq_iff_iff]
  constructor
  · intro h
    rcases (Bool.or_eq_true _ _ ▸ h) with hall | hsome
    · rw [basisCondAll, Bool.and_eq_true] at hall
      obtain ⟨hnc, hns⟩ := hall
      obtain ⟨o, t', rfl⟩ := List.exists_cons_of_ne_nil hc
      cases o with
      | none =>
        exfalso
        have h0 : nullCount (none :: t') = 0 := of_decide_eq_true hnc
        have : 0 < nullCount (none :: t') := by
          unfold nullCount
          simp
        omega
      | some v =>
        have hv : (some v : Option ℚ) ≠ some 0 :=
          of_decide_eq_true (List.all_eq_true.mp hns (some v) (List.mem_cons_self _ _))
        rw [hasNonzero, List.any_eq_true]
        refine ⟨some v, List.mem_cons_self _ _, ?_⟩
        have : v ≠ 0 := fun h0 => hv (by rw [h0])
        simpa using this
    · rw [basisCondSome, Bool.and_eq_true] at hsome
      have hlen : 0 < ((col.filterMap id).filter fun v => decide (v ≠ 0)).length :=
        of_decide_eq_true hsome.2
      obtain ⟨v, hv⟩ := List.exists_mem_of_length_pos hlen
      rw [List.mem_filter] at hv
      obtain ⟨hvm, hv0⟩ := hv
      obtain ⟨o, ho, hoe⟩ := List.mem_filterMap.mp hvm
      rw [hasNonzero, List.any_eq_true]
      refine ⟨o, ho, ?_⟩
      cases o with
      | none => simp at hoe
      | some w =>
        have : w = v := by simpa using hoe
        subst this
        simpa using of_decide_eq_true hv0
  · intro h
    rw [hasNonzero, List.any_eq_true] at h
    obtain ⟨o, ho, hv⟩ := h
    cases o with
    | none => simp at hv
    | some v =>
      have hv' : v ≠ 0 := of_decide_eq_true (by simpa using hv)
      rw [Bool.or_eq_true]
      right
      rw [basisCondSome, Bool.and_eq_true]
      constructor
      · apply decide_eq_true
        unfold nullCount
        exact List.length_filter_lt_length_iff_exists.mpr ⟨some v, ho, by simp⟩
      · apply decide_eq_true
        have : v ∈ (col.filterMap id).filter fun x => decide (x ≠ 0) := by
          rw [List.mem_filter]
          exact ⟨List.mem_filterMap.mpr ⟨some v, ho, rfl⟩, by simpa using hv'⟩
        exact List.length_pos.mpr (List.ne_nil_of_mem this)

/-- Claim C7 counterexample: on a null-free, all-zero basis column the
spec's acceptance predicate (`specUsableBasis`) accepts the basis, but
`resolve_basis` rejects it and `allocate_charge` raises. -/
theorem resolve_basis_spec_counterexample :
    specUsableBasis czFrame "qty" = true ∧ "qty" ∈ czFrame.cols ∧
    resolve_basis ["qty"] czFrame = none ∧
    allocate_charge "STORAGE3PL_FEE" 100 0 ["qty"] ["item"] czFrame =
      .error (noBasisMsg "STORAGE3PL_FEE") := by
  refine ⟨?_, ?_, ?_, ?_⟩ <;>
    norm_num [specUsableBasis, resolve_basis, allocate_charge, basisCondAll, basisCondSome,
      nullCount, hasNonzero, Frame.col, Row.get, czFrame, List.lookup, List.filter,
      List.filterMap, List.find?]

/-- Claim C7 (amended): `resolve_basis` iterates the priority list in
order and accepts the first basis, present as a column, for which at
least one target has a non-null, non-zero value — a basis whose values
are all non-null but all zero is NOT accepted — and `allocate_charge`
raises exactly when no basis in the list satisfies this. -/
theorem resolve_basis_first_usable (pr : List String) (t : Frame) (hne : t.rows ≠ []) :
    resolve_basis pr t = (pr.find? fun b => b ∈ t.cols && hasNonzero (t.col b)) ∧
    ∀ (ct : String) (amount : ℚ) (d : ℕ) (sk : List String),
      (allocate_charge ct amount d pr sk t = .error (noBasisMsg ct) ↔
        resolve_basis pr t = none) := by
  constructor
  · apply find?_congr
    intro b _
    have hc : t.col b ≠ [] := by
      have : (t.col b).length = t.rows.length := List.length_map _ _
      apply List.ne_nil_of_length_pos
      rw [this]
      exact List.length_pos.mpr hne
    rw [conds_eq_hasNonzero (t.col b) hc]
  · intro ct amount d sk
    unfold allocate_charge
    rw [if_neg (by simpa [List.isEmpty_iff] using hne)]
    cases hres : resolve_basis pr t with
    | none => simp
    | some b => simp

/-- Single-target frame with a usable basis, for the C7 witness. -/
def c7Frame : Frame := ⟨["qty"], [⟨1, [("qty", some 2)]⟩]⟩

/-- Witness for the amended C7 on a concrete frame. -/
theorem resolve_basis_first_usable_witness :
    (resolve_basis ["weight", "qty"] c7Frame =
      (["weight", "qty"].find? fun b => b ∈ c7Frame.cols && hasNonzero (c7Frame.col b))) ∧
    ∀ (ct : String) (amount : ℚ) (d : ℕ) (sk : List String),
      (allocate_charge ct amount d ["weight", "qty"] sk c7Frame = .error (noBasisMsg ct) ↔
        resolve_basis ["weight", "qty"] c7Frame = none) :=
  resolve_basis_first_usable ["weight", "qty"] c7Frame (by decide)

/-! ### FX-rate resolution in `allocate_all_charges` -/

/-- The FX-rate resolution of `allocate_all_charges`
(src/allocation.py:181-184):
`rate_to_krw = fx_map.get((period, currency), 1.0)` followed by
`if currency == "KRW": rate_to_krw = 1.0`. -/
def resolve_rate_to_krw (fx_map : List ((String × String) × ℚ))
    (period currency : String) : ℚ :=
  let rate := (fx_map.lookup (period, currency)).getD 1
  if currency = "KRW" then 1 else rate

/-- Claim C2 evidence: whenever the `(period, currency)` pair is absent
from the FX table, `allocate_all_charges` resolves the rate to 1 — even
for a non-KRW currency — contradicting the rule that a missing FX rate
for a foreign currency must propagate as missing and never default
to 1.0. -/
theorem fx_missing_defaults_to_one
    (fx_map : List ((String × String) × ℚ)) (period currency : String)
    (hmiss : fx_map.lookup (period, currency) = none) :
    resolve_rate_to_krw fx_map period currency = 1 := by
  unfold resolve_rate_to_krw
  rw [hmiss]
  split <;> rfl

/-- Witness for C2's evidence theorem: a USD charge with an empty FX
table is converted at rate 1. -/
theorem fx_missing_defaults_to_one_witness :
    resolve_rate_to_krw [] "2024-01" "USD" = 1 :=
  fx_missing_defaults_to_one [] "2024-01" "USD" rfl

/-! ### Period close (`src/period_close.py`) -/

/-- One row of `ops.ops_period_close` (timestamps elided — wall-clock
values do not affect the close/reopen/check logic). -/
structure PeriodCloseRow where
  period : String
  lock_flag : Bool
  closed_by : Option String
  notes : Option String
deriving DecidableEq, Repr

/-- `close_period(con, period, closed_by)`: updates the existing rows for
the period (setting `lock_flag = true`), else inserts a fresh locked row. -/
def close_period (db : List PeriodCloseRow) (period : String) (closed_by : String) :
    List PeriodCloseRow :=
  if 0 < (db.filter fun r => r.period = period).length then
    db.map fun r =>
      if r.period = period then { r with lock_flag := true, closed_by := some closed_by }
      else r
  else db ++ [⟨period, true, some closed_by, none⟩]

/-- `is_period_closed(con, period)`: `lock_flag` of the first row found
for the period, `false` when no row exists. -/
def is_period_closed (db : List PeriodCloseRow) (period : String) : Bool :=
  match (db.filter fun r => r.period = period).head? with
  | none => false
  | some r => r.lock_flag

/-- `reopen_period(con, period, reason)`: sets `lock_flag = false` and a
`Reopened: ...` note on every row of the period. -/
def reopen_period (db : List PeriodCloseRow) (period : String) (reason : String) :
    List PeriodCloseRow :=
  db.map fun r =>
    if r.period = period then
      { r with lock_flag := false, notes := some ("Reopened: " ++ reason) }
    else r

/-- The `ValueError` message of `check_period_for_ingestion`. -/
def closedPeriodMsg (period : String) : String :=
  "Period " ++ period ++ " is closed. Cannot ingest data directly."

/-- `check_period_for_ingestion(con, period)`: raises when the period is
closed, succeeds otherwise. -/
def check_period_for_ingestion (db : List PeriodCloseRow) (period : String) :
    Except String Unit :=
  if is_period_closed db period then .error (closedPeriodMsg period) else .ok ()

lemma is_period_closed_close (db : List PeriodCloseRow) (p : String) (b : String) :
    is_period_closed (close_period db p b) p = true := by
  unfold close_period
  split
  · rename_i hpos
    unfold is_period_closed
    induction db with
    | nil => simp at hpos
    | cons d t ih =>
      by_cases hd : d.period = p
      · simp [hd]
      · have hpos' : 0 < (t.filter fun r => r.period = p).length := by
          rw [List.filter_cons_of_neg (by simpa using hd)] at hpos
          exact hpos
        simpa [hd] using ih hpos'
  · rename_i hpos
    have hnil : (db.filter fun r => decide (r.period = p)) = [] := by
      rcases h : db.filter fun r => decide (r.period = p) with _ | ⟨x, xs⟩
      · exact h
      · exact absurd (h ▸ (by simp : 0 < (x :: xs).length)) hpos
    unfold is_period_closed
    rw [List.filter_append, hnil]
    simp

lemma is_period_closed_reopen (db : List PeriodCloseRow) (p : String) (reason : String) :
    is_period_closed (reopen_period db p reason) p = false := by
  unfold is_period_closed reopen_period
  set g : PeriodCloseRow → PeriodCloseRow := fun r =>
    if r.period = p then
      { r with lock_flag := false, notes := some ("Reopened: " ++ reason) }
    else r with hg
  have hall : ∀ x ∈ (db.map g).filter fun r => decide (r.period = p),
      x.lock_flag = false := by
    intro x hx
    rw [List.mem_filter] at hx
    obtain ⟨hxm, hxp⟩ := hx
    obtain ⟨r, hr, hre⟩ := List.mem_map.mp hxm
    by_cases hrp : r.period = p
    · rw [hg] at hre
      simp only [if_pos hrp] at hre
      rw [← hre]
    · rw [hg] at hre
      simp only [if_neg hrp] at hre
      exact absurd (of_decide_eq_true (hre ▸ hxp)) hrp
  rcases hf : (db.map g).filter fun r => decide (r.period = p) with _ | ⟨x, xs⟩
  · rw [hf]
    rfl
  · rw [hf]
    exact hall x (hf ▸ List.mem_cons_self x xs)

/-- Claim C8: after `close_period(p)` the period is closed and a direct
ingestion check for `p` raises `PeriodClosedError`; after
`reopen_period(p)` the same check succeeds. -/
theorem closed_period_ingestion_gate (db : List PeriodCloseRow)
    (p closed_by reason : String) :
    check_period_for_ingestion (close_period db p closed_by) p =
      .error (closedPeriodMsg p) ∧
    check_period_for_ingestion
      (reopen_period (close_period db p closed_by) p reason) p = .ok () := by
  constructor
  · unfold check_period_for_ingestion
    rw [is_period_closed_close]
    rfl
  · unfold check_period_for_ingestion
    rw [is_period_closed_reopen]
    rfl

/-! ### Coverage classification (`src/coverage.py`, `src/config.py`) -/

/-- `AppConfig.is_domain_required(domain, is_closed)` from `src/config.py`:
when the period is closed and the domain appears in
`close_period_enforcement`, that entry decides REQUIRED-ness; otherwise
the domain's own `requirement` (default `OPTIONAL`) decides. -/
def is_domain_required (domains close_enforce : List (String × String))
    (domain : String) (is_closed : Bool) : Bool :=
  if is_closed && (close_enforce.lookup domain).isSome then
    decide (close_enforce.lookup domain = some "REQUIRED")
  else decide ((domains.lookup domain).getD "OPTIONAL" = "REQUIRED")

/-- One row of `mart.mart_coverage_period` (period and domain strings
elided — they are copied through unchanged). -/
structure CoverageRecord where
  coverage_rate : ℚ
  included_rows : ℕ
  missing_rows : ℕ
  severity : String
  is_closed_period : Bool
deriving DecidableEq, Repr

/-- The per-(domain, period) classification loop body of
`compute_coverage` from `src/coverage.py`, given the row count `cnt` for
the domain's query at this period. -/
def coverage_classify (domains close_enforce : List (String × String))
    (domain : String) (cnt min_rows : ℕ) (is_closed : Bool) : CoverageRecord :=
  let rate : ℚ := if min_rows ≤ cnt then 1 else 0
  let included := cnt
  let missing := if min_rows ≤ cnt then 0 else min_rows - cnt
  let required := is_domain_required domains close_enforce domain is_closed
  let severity :=
    if rate < 1 ∧ required = true then "CRITICAL"
    else if rate < 1 then "INFO"
    else "OK"
  ⟨rate, included, missing, severity, is_closed⟩

/-- Claim C9: `compute_coverage` classifies every `(domain, period)` pair:
severity is `OK` iff the row count reaches `min_rows`; otherwise
`coverage_rate = 0` and severity is `CRITICAL` exactly when the domain is
REQUIRED for that period, else `INFO`; REQUIRED-ness is taken from the
close-period enforcement policy when the period is closed (so a domain
may be OPTIONAL while open but REQUIRED once closed). -/
theorem coverage_severity_classification
    (domains close_enforce : List (String × String)) (domain : String)
    (cnt min_rows : ℕ) (is_closed : Bool) :
    ((coverage_classify domains close_enforce domain cnt min_rows is_closed).severity = "OK"
      ↔ min_rows ≤ cnt) ∧
    (cnt < min_rows →
      (coverage_classify domains close_enforce domain cnt min_rows is_closed).coverage_rate = 0 ∧
      (coverage_classify domains close_enforce domain cnt min_rows is_closed).severity =
        (if is_domain_required domains close_enforce domain is_closed
          then "CRITICAL" else "INFO")) ∧
    (is_closed = true → (close_enforce.lookup domain).isSome = true →
      is_domain_required domains close_enforce domain is_closed =
        decide (close_enforce.lookup domain = some "REQUIRED")) ∧
    (is_domain_required [(domain, "OPTIONAL")] [(domain, "REQUIRED")] domain false = false ∧
      is_domain_required [(domain, "OPTIONAL")] [(domain, "REQUIRED")] domain true = true) := by
  refine ⟨?_, ?_, ?_, ?_, ?_⟩
  · by_cases hc : min_rows ≤ cnt
    · simp [coverage_classify, hc]
    · simp only [coverage_classify, if_neg hc]
      constructor
      · intro h
        split at h <;> simp_all
      · intro h
        exact absurd h hc
  · intro hlt
    have hc : ¬min_rows ≤ cnt := Nat.not_le.mpr hlt
    constructor
    · simp [coverage_classify, hc]
    · simp only [coverage_classify, if_neg hc]
      by_cases hr : is_domain_required domains close_enforce domain is_closed
      · simp [hr, (by norm_num : (0 : ℚ) < 1)]
      · simp [hr, (by norm_num : (0 : ℚ) < 1)]
  · intro h1 h2
    unfold is_domain_required
    rw [h1, h2]
    simp
  · simp [is_domain_required, List.lookup]
  · simp [is_domain_required, List.lookup]

/-- Witness for C9: a domain with 0 rows, `min_rows = 1`, OPTIONAL while
open but REQUIRED at close, in a closed period. -/
theorem coverage_severity_classification_witness :
    (coverage_classify [("fx_rate", "OPTIONAL")] [("fx_rate", "REQUIRED")]
        "fx_rate" 0 1 true).coverage_rate = 0 ∧
    (coverage_classify [("fx_rate", "OPTIONAL")] [("fx_rate", "REQUIRED")]
        "fx_rate" 0 1 true).severity =
      (if is_domain_required [("fx_rate", "OPTIONAL")] [("fx_rate", "REQUIRED")]
          "fx_rate" true then "CRITICAL" else "INFO") :=
  (coverage_severity_classification [("fx_rate", "OPTIONAL")] [("fx_rate", "REQUIRED")]
    "fx_rate" 0 1 true).2.1 (by norm_num)

/-! ### P&L waterfall coverage flags (`src/mart_pnl.py`) -/

/-- `COALESCE(flag, 'PARTIAL')` on a nullable coverage-flag column. -/
def coalesce_flag (o : Option String) : String := o.getD "PARTIAL"

/-- Coverage flag of `build_mart_pnl_gross_margin` for one
full-outer-join row; a side's flag is null when that side has no matching
row. -/
def gross_margin_flag (r_flag c_flag : Option String) : String :=
  if coalesce_flag r_flag = "ACTUAL" ∧ coalesce_flag c_flag = "ACTUAL"
  then "ACTUAL" else "PARTIAL"

/-- One row of `mart.mart_charge_allocated` as read by
`build_mart_pnl_variable_cost` (columns it does not touch elided). -/
structure AllocatedRow where
  period : String
  item_id : Option String
  channel_store_id : Option String
  charge_domain : String
  charge_type : String
  allocated_amount_krw : ℚ
deriving DecidableEq, Repr

/-- The GROUP BY key of `build_mart_pnl_variable_cost`:
`(period, COALESCE(item_id,'ALL'), COALESCE(channel_store_id,'ALL'),
charge_domain, charge_type)`. -/
def vcKey (r : AllocatedRow) : String × String × String × String × String :=
  (r.period, r.item_id.getD "ALL", r.channel_store_id.getD "ALL",
   r.charge_domain, r.charge_type)

/-- One row of `mart.mart_pnl_variable_cost`. -/
structure VariableCostRow where
  period : String
  item_id : String
  channel_store_id : String
  country : String
  charge_domain : String
  charge_type : String
  allocated_amount_krw : ℚ
  coverage_flag : String
deriving DecidableEq, Repr

/-- `build_mart_pnl_variable_cost`: grouped sum of allocated charges with
`'KR' as country` and the literal `'ACTUAL' as coverage_flag` on every
output row. -/
def build_mart_pnl_variable_cost (alloc : List AllocatedRow) : List VariableCostRow :=
  ((alloc.map vcKey).dedup).map fun k =>
    ⟨k.1, k.2.1, k.2.2.1, "KR", k.2.2.2.1, k.2.2.2.2,
     ((alloc.filter fun r => vcKey r = k).map fun r => r.allocated_amount_krw).sum,
     "ACTUAL"⟩

/-- The variable-cost side of `build_mart_pnl_contribution`'s LEFT JOIN:
`SUM(allocated_amount_krw)` over the variable-cost rows matching the
grain, null when no row matches. -/
def contribution_total_vc (vc : List VariableCostRow)
    (period item store : String) : Option ℚ :=
  let matched := vc.filter fun r =>
    r.period = period ∧ r.item_id = item ∧ r.channel_store_id = store
  if matched.isEmpty then none
  else some ((matched.map fun r => r.allocated_amount_krw).sum)

/-- Coverage flag of `build_mart_pnl_contribution` for one row, from the
SQL `CASE WHEN COALESCE(gm.coverage_flag,'PARTIAL') = 'ACTUAL' AND
(vc.total_vc IS NOT NULL OR COALESCE(gm.coverage_flag,'PARTIAL') =
'ACTUAL') THEN COALESCE(gm.coverage_flag,'PARTIAL') ELSE 'PARTIAL' END`. -/
def contribution_flag (gm_flag : Option String) (total_vc : Option ℚ) : String :=
  if coalesce_flag gm_flag = "ACTUAL" ∧
      (total_vc.isSome = true ∨ coalesce_flag gm_flag = "ACTUAL")
  then coalesce_flag gm_flag else "PARTIAL"

/-- Coverage flag of `build_mart_pnl_operating_profit`:
`COALESCE(coverage_flag, 'PARTIAL')` from the contribution row;
`fixed_cost_krw` (the constant 0) is not consulted. -/
def operating_profit_flag (contribution_flag_col : Option String) : String :=
  coalesce_flag contribution_flag_col

lemma build_vc_flag (alloc : List AllocatedRow) :
    ∀ v ∈ build_mart_pnl_variable_cost alloc, v.coverage_flag = "ACTUAL" := by
  intro v hv
  unfold build_mart_pnl_variable_cost at hv
  obtain ⟨k, hk, hke⟩ := List.mem_map.mp hv
  rw [← hke]

/-- Claim C3: each downstream waterfall stage's coverage flag is `ACTUAL`
iff every upstream flag is `ACTUAL` (a missing join side counting as not
`ACTUAL`): gross margin from revenue and COGS; contribution from gross
margin and the variable-cost rows matching the grain (all of which carry
`ACTUAL`); operating profit inheriting from contribution with
`fixed_cost_krw` excluded.  Hence any non-`ACTUAL` upstream forces a
non-`ACTUAL` downstream. -/
theorem coverage_flag_lattice :
    (∀ r_flag c_flag : Option String,
      gross_margin_flag r_flag c_flag = "ACTUAL" ↔
        (r_flag = some "ACTUAL" ∧ c_flag = some "ACTUAL")) ∧
    (∀ (alloc : List AllocatedRow) (gm p i s : String),
      contribution_flag (some gm)
          (contribution_total_vc (build_mart_pnl_variable_cost alloc) p i s) = "ACTUAL" ↔
        (gm = "ACTUAL" ∧
          ∀ v ∈ (build_mart_pnl_variable_cost alloc).filter fun r =>
              decide (r.period = p ∧ r.item_id = i ∧ r.channel_store_id = s),
            v.coverage_flag = "ACTUAL")) ∧
    (∀ c_flag : Option String,
      operating_profit_flag c_flag = "ACTUAL" ↔ c_flag = some "ACTUAL") := by
  refine ⟨?_, ?_, ?_⟩
  · intro rf cf
    constructor
    · intro h
      unfold gross_margin_flag at h
      split at h
      · rename_i hc
        cases rf with
        | none => simp [coalesce_flag] at hc
        | some s =>
          cases cf with
          | none => simp [coalesce_flag] at hc
          | some s' =>
            simp only [coalesce_flag, Option.getD_some] at hc
            exact ⟨by rw [hc.1], by rw [hc.2]⟩
      · simp at h
    · rintro ⟨rfl, rfl⟩
      simp [gross_margin_flag, coalesce_flag]
  · intro alloc gm p i s
    constructor
    · intro h
      unfold contribution_flag at h
      split at h
      · rename_i hc
        simp only [coalesce_flag, Option.getD_some] at hc h
        exact ⟨h, fun v hv => build_vc_flag alloc v (List.mem_filter.mp hv).1⟩
      · simp at h
    · rintro ⟨rfl, _⟩
      simp [contribution_flag, coalesce_flag]
  · intro cf
    cases cf with
    | none => simp [operating_profit_flag, coalesce_flag]
    | some s => simp [operating_profit_flag, coalesce_flag]

/-- Claim C10: every row of `build_mart_pnl_variable_cost` carries
`coverage_flag = 'ACTUAL'` unconditionally, so the contribution stage's
coverage flag does not depend on the variable-cost total at all and
reduces to the gross-margin flag alone. -/
theorem variable_cost_flag_actual :
    (∀ (alloc : List AllocatedRow), ∀ v ∈ build_mart_pnl_variable_cost alloc,
      v.coverage_flag = "ACTUAL") ∧
    (∀ (gm : String) (tv tv' : Option ℚ),
      contribution_flag (some gm) tv = contribution_flag (some gm) tv') ∧
    (∀ tv : Option ℚ,
      contribution_flag (some "ACTUAL") tv = "ACTUAL" ∧
      contribution_flag (some "PARTIAL") tv = "PARTIAL") := by
  refine ⟨build_vc_flag, ?_, ?_⟩
  · intro gm tv tv'
    by_cases h : gm = "ACTUAL"
    · simp [contribution_flag, coalesce_flag, h]
    · simp [contribution_flag, coalesce_flag, h]
  · intro tv
    constructor
    · simp [contribution_flag, coalesce_flag]
    · simp [contribution_flag, coalesce_flag]

/-- Concrete allocated charge for the C10 witness. -/
def c10Alloc : AllocatedRow :=
  ⟨"2024-01", some "SKU-1", some "ST-1", "logistics_transport", "LAST_MILE_PARCEL", 100⟩

/-- The variable-cost mart row produced from `c10Alloc`. -/
def c10VCRow : VariableCostRow :=
  ⟨"2024-01", "SKU-1", "ST-1", "KR", "logistics_transport", "LAST_MILE_PARCEL", 100, "ACTUAL"⟩

/-- Witness for C10 on a one-charge input. -/
theorem variable_cost_flag_actual_witness :
    c10VCRow ∈ build_mart_pnl_variable_cost [c10Alloc] ∧
    c10VCRow.coverage_flag = "ACTUAL" :=
  have hm : c10VCRow ∈ build_mart_pnl_variable_cost [c10Alloc] := by
    norm_num [build_mart_pnl_variable_cost, vcKey, c10Alloc, c10VCRow, List.dedup,
      List.filter]
  ⟨hm, variable_cost_flag_actual.1 [c10Alloc] c10VCRow hm⟩

/-! ### Revenue mart FX handling (`build_mart_pnl_revenue`) -/

/-- One settlement row as selected by `build_mart_pnl_revenue` (after the
`COALESCE(..., 0)` on the local-currency amounts). -/
structure SettlementRow where
  period : String
  item_id : String
  channel_store_id : String
  country : String
  currency : String
  gross_sales : ℚ
  discounts : ℚ
  refunds : ℚ
  net_payout : ℚ
deriving DecidableEq, Repr

/-- One row of `mart.mart_pnl_revenue`. -/
structure RevenueRow where
  period : String
  item_id : String
  channel_store_id : String
  country : String
  gross_sales_krw : Option ℚ
  discounts_krw : Option ℚ
  refunds_krw : Option ℚ
  net_revenue_krw : Option ℚ
  source : String
  coverage_flag : String
deriving DecidableEq, Repr

/-- `fx_map.get((period, currency))` — no default. -/
def fxLookup (fx_map : List ((String × String) × ℚ))
    (period currency : String) : Option ℚ :=
  fx_map.lookup (period, currency)

/-- The per-row conversion loop of `build_mart_pnl_revenue`
(src/mart_pnl.py:112-154): KRW converts at rate 1 and flags `ACTUAL`; a
non-KRW row converts at the looked-up rate and flags `ACTUAL` when the
rate exists, else writes null into every KRW column and flags `PARTIAL`. -/
def revenue_row (fx_map : List ((String × String) × ℚ)) (r : SettlementRow) : RevenueRow :=
  if r.currency = "KRW" then
    ⟨r.period, r.item_id, r.channel_store_id, r.country,
     some (r.gross_sales * 1), some (r.discounts * 1), some (r.refunds * 1),
     some (r.net_payout * 1), "settlement", "ACTUAL"⟩
  else
    match fxLookup fx_map r.period r.currency with
    | some rate =>
      ⟨r.period, r.item_id, r.channel_store_id, r.country,
       some (r.gross_sales * rate), some (r.discounts * rate), some (r.refunds * rate),
       some (r.net_payout * rate), "settlement", "ACTUAL"⟩
    | none =>
      ⟨r.period, r.item_id, r.channel_store_id, r.country,
       none, none, none, none, "settlement", "PARTIAL"⟩

/-- `build_mart_pnl_revenue` over the settlement rows. -/
def build_mart_pnl_revenue (fx_map : List ((String × String) × ℚ))
    (settlements : List SettlementRow) : List RevenueRow :=
  settlements.map (revenue_row fx_map)

/-- Claim C5: a settlement row in a non-KRW currency with no matching
`(period, currency)` FX row produces null in every KRW-denominated column
and `coverage_flag = 'PARTIAL'`, never a value computed with rate 1.0;
a KRW row, or a non-KRW row with a matching FX rate, is converted and
flagged `ACTUAL`. -/
theorem revenue_fx_no_silent_default (fx_map : List ((String × String) × ℚ))
    (r : SettlementRow) :
    (r.currency ≠ "KRW" → fxLookup fx_map r.period r.currency = none →
      ((revenue_row fx_map r).gross_sales_krw = none ∧
       (revenue_row fx_map r).discounts_krw = none ∧
       (revenue_row fx_map r).refunds_krw = none ∧
       (revenue_row fx_map r).net_revenue_krw = none ∧
       (revenue_row fx_map r).coverage_flag = "PARTIAL")) ∧
    (r.currency = "KRW" →
      ((revenue_row fx_map r).net_revenue_krw = some (r.net_payout * 1) ∧
       (revenue_row fx_map r).coverage_flag = "ACTUAL")) ∧
    (∀ rate : ℚ, r.currency ≠ "KRW" → fxLookup fx_map r.period r.currency = some rate →
      ((revenue_row fx_map r).net_revenue_krw = some (r.net_payout * rate) ∧
       (revenue_row fx_map r).coverage_flag = "ACTUAL")) := by
  refine ⟨?_, ?_, ?_⟩
  · intro hk hmiss
    unfold revenue_row
    rw [if_neg hk, hmiss]
    exact ⟨rfl, rfl, rfl, rfl, rfl⟩
  · intro hk
    unfold revenue_row
    rw [if_pos hk]
    exact ⟨rfl, rfl⟩
  · intro rate hk hfound
    unfold revenue_row
    rw [if_neg hk, hfound]
    exact ⟨rfl, rfl⟩

/-- A USD settlement row for the C5 witness. -/
def wUsdRow : SettlementRow :=
  ⟨"2024-01", "SKU-001", "STORE-A", "KR", "USD", 100, 0, 0, 100⟩

/-- A KRW settlement row for the C5 witness. -/
def wKrwRow : SettlementRow :=
  ⟨"2024-01", "SKU-002", "STORE-A", "KR", "KRW", 5000, 0, 0, 5000⟩

/-- Witness for C5: missing USD rate gives nulls and `PARTIAL`; KRW and a
present USD rate give converted values and `ACTUAL`. -/
theorem revenue_fx_no_silent_default_witness :
    ((revenue_row [] wUsdRow).net_revenue_krw = none ∧
     (revenue_row [] wUsdRow).coverage_flag = "PARTIAL") ∧
    ((revenue_row [] wKrwRow).net_revenue_krw = some (wKrwRow.net_payout * 1) ∧
     (revenue_row [] wKrwRow).coverage_flag = "ACTUAL") ∧
    ((revenue_row [(("2024-01", "USD"), 1300)] wUsdRow).net_revenue_krw =
        some (wUsdRow.net_payout * 1300) ∧
     (revenue_row [(("2024-01", "USD"), 1300)] wUsdRow).coverage_flag = "ACTUAL") :=
  have h1 := (revenue_fx_no_silent_default [] wUsdRow).1 (by decide) rfl
  have h2 := (revenue_fx_no_silent_default [] wKrwRow).2.1 rfl
  have h3 := (revenue_fx_no_silent_default [(("2024-01", "USD"), 1300)] wUsdRow).2.2
    1300 (by decide) rfl
  ⟨⟨h1.2.2.2.1, h1.2.2.2.2⟩, h2, h3⟩

/-! ### COGS as-of join (`build_mart_pnl_cogs`) -/

/-- Key-grouped sum over a list: one output row per distinct key in
first-occurrence order — the SQL `GROUP BY key` with `SUM(val)`. -/
def groupSum {κ α : Type} [DecidableEq κ] (key : α → κ) (val : α → ℚ)
    (l : List α) : List (κ × ℚ) :=
  (l.map key).dedup.map fun k => (k, ((l.filter fun x => key x = k).map val).sum)

lemma groupSum_keys {κ α : Type} [DecidableEq κ] (key : α → κ) (val : α → ℚ)
    (l : List α) : (groupSum key val l).map Prod.fst = (l.map key).dedup := by
  unfold groupSum
  rw [List.map_map]
  exact List.map_id _

/-- A GROUP BY output has pairwise-distinct keys. -/
lemma groupSum_keys_nodup {κ α : Type} [DecidableEq κ] (key : α → κ) (val : α → ℚ)
    (l : List α) : ((groupSum key val l).map Prod.fst).Nodup := by
  rw [groupSum_keys]
  exact List.nodup_dedup _

/-- One row of `core.fact_shipment` as read by `build_mart_pnl_cogs`
(dates abstracted to `ℕ`). -/
structure ShipmentRow where
  ship_date : ℕ
  item_id : String
  channel_store_id : Option String
  channel_order_id : Option String
  qty_shipped : ℚ
deriving DecidableEq, Repr

/-- One row of `core.fact_return` as read by `build_mart_pnl_cogs`. -/
structure ReturnRow where
  return_date : ℕ
  item_id : String
  channel_order_id : Option String
  qty_returned : ℚ
deriving DecidableEq, Repr

/-- One row of `core.fact_cost_structure`: possibly several cost
components per `(item_id, effective_from)`. -/
structure CostStructureRow where
  item_id : String
  effective_from : ℕ
  cost_per_unit_krw : ℚ
deriving DecidableEq, Repr

/-- The `shipped` CTE: sales-only shipments
(`channel_order_id IS NOT NULL`) grouped at
`(period, item_id, COALESCE(channel_store_id,'UNKNOWN'))`;
`dateToPeriod` plays `STRFTIME(ship_date, '%Y-%m')`. -/
def shippedAgg (dateToPeriod : ℕ → ℕ) (ships : List ShipmentRow) :
    List ((ℕ × String × String) × ℚ) :=
  groupSum
    (fun s => (dateToPeriod s.ship_date, s.item_id, s.channel_store_id.getD "UNKNOWN"))
    (fun s => s.qty_shipped)
    (ships.filter fun s => s.channel_order_id.isSome)

/-- The `returned` CTE: sales-only returns grouped at `(period, item_id)`. -/
def returnedAgg (dateToPeriod : ℕ → ℕ) (rets : List ReturnRow) :
    List ((ℕ × String) × ℚ) :=
  groupSum (fun r => (dateToPeriod r.return_date, r.item_id))
    (fun r => r.qty_returned)
    (rets.filter fun r => r.channel_order_id.isSome)

/-- One `shipped_net` row. -/
structure ShippedNetRow where
  period : ℕ
  item_id : String
  channel_store_id : String
  qty_shipped : ℚ
  qty_returned : ℚ
  qty_net : ℚ
deriving DecidableEq, Repr

/-- The `shipped_net` CTE: LEFT JOIN of `shipped` to `returned` on
`(period, item_id)` with `COALESCE(qty_returned, 0)`; the returned side
has unique keys (GROUP BY output), so the join is a lookup. -/
def shippedNet (dateToPeriod : ℕ → ℕ) (ships : List ShipmentRow)
    (rets : List ReturnRow) : List ShippedNetRow :=
  (shippedAgg dateToPeriod ships).map fun s =>
    let ret := ((returnedAgg dateToPeriod rets).lookup (s.1.1, s.1.2.1)).getD 0
    ⟨s.1.1, s.1.2.1, s.1.2.2, s.2, ret, s.2 - ret⟩

/-- The `cost_agg` CTE: cost components pre-aggregated per
`(item_id, effective_from)` before the as-of join. -/
def costAgg (costs : List CostStructureRow) : List ((String × ℕ) × ℚ) :=
  groupSum (fun c => (c.item_id, c.effective_from))
    (fun c => c.cost_per_unit_krw) costs

/-- The `cost_ranked ... WHERE rn = 1` as-of selection for one
`shipped_net` row: among the pre-aggregated cost rows for the item with
`effective_from <= LAST_DAY(period)` (abstracted as `periodEnd`), the row
ranked 1 by `ORDER BY effective_from DESC`.  Since the `shipped_net` grain
is unique, each `ROW_NUMBER` partition holds exactly this row's
candidates. -/
def asOfUnitCost (periodEnd : ℕ → ℕ) (cost_agg : List ((String × ℕ) × ℚ))
    (sn : ShippedNetRow) : Option ℚ :=
  let cands := cost_agg.filter fun c => c.1.1 = sn.item_id ∧ c.1.2 ≤ periodEnd sn.period
  ((cands.insertionSort fun a b => b.1.2 ≤ a.1.2).head?).map fun c => c.2

/-- One row of `mart.mart_pnl_cogs`. -/
structure CogsRow where
  period : ℕ
  item_id : String
  channel_store_id : String
  country : String
  qty_shipped : ℚ
  qty_returned : ℚ
  qty_net : ℚ
  unit_cost_krw : Option ℚ
  cogs_krw : Option ℚ
  coverage_flag : String
deriving DecidableEq, Repr

/-- The output grain `(period, item_id, channel_store_id)`. -/
def cogsGrain (r : CogsRow) : ℕ × String × String :=
  (r.period, r.item_id, r.channel_store_id)

/-- The COGS result set before the duplicate-grain assertion: missing
cost gives `cogs_krw = NULL` and `coverage_flag = 'PARTIAL'`, never 0. -/
def cogsRows (dateToPeriod periodEnd : ℕ → ℕ) (ships : List ShipmentRow)
    (rets : List ReturnRow) (costs : List CostStructureRow) : List CogsRow :=
  (shippedNet dateToPeriod ships rets).map fun sn =>
    let u := asOfUnitCost periodEnd (costAgg costs) sn
    ⟨sn.period, sn.item_id, sn.channel_store_id, "KR",
     sn.qty_shipped, sn.qty_returned, sn.qty_net, u,
     u.map fun c => sn.qty_net * c,
     if u.isSome then "ACTUAL" else "PARTIAL"⟩

/-- The duplicate-grain detection:
`cogs_df.group_by(grain).len()` filtered to `len > 1`. -/
def dupGrains (rows : List CogsRow) : List ((ℕ × String × String) × ℕ) :=
  (((rows.map cogsGrain).dedup).map fun k =>
    (k, ((rows.map cogsGrain).filter fun g => g = k).length)).filter
    fun kc => 1 < kc.2

/-- `build_mart_pnl_cogs`: build, early return when empty, then the hard
duplicate-grain assertion (`raise ValueError`) before writing the mart. -/
def build_mart_pnl_cogs (dateToPeriod periodEnd : ℕ → ℕ) (ships : List ShipmentRow)
    (rets : List ReturnRow) (costs : List CostStructureRow) :
    Except String (List CogsRow) :=
  let out := cogsRows dateToPeriod periodEnd ships rets costs
  if out.isEmpty then .ok []
  else if (dupGrains out).isEmpty then .ok out
  else .error "COGS join produced duplicate grain rows - DQ HIGH FAIL"

lemma nodup_iff_filter_length_le_one {α : Type} [DecidableEq α] (L : List α) :
    L.Nodup ↔ ∀ k, ((L.filter fun g => decide (g = k)).length ≤ 1) := by
  induction L with
  | nil => simp
  | cons a t ih =>
    rw [List.nodup_cons, ih]
    constructor
    · rintro ⟨hna, ht⟩ k
      rw [List.filter_cons]
      by_cases hak : a = k
      · subst hak
        have h0 : (t.filter fun g => decide (g = a)) = [] := by
          rw [List.filter_eq_nil_iff]
          intro g hg
          simp only [decide_eq_true_iff]
          exact fun he => hna (he ▸ hg)
        simp [h0]
      · rw [if_neg (by simpa using hak)]
        exact ht k
    · intro h
      constructor
      · intro ha
        have hk := h a
        rw [List.filter_cons, if_pos (by simp)] at hk
        have h0 : (t.filter fun g => decide (g = a)).length = 0 := by
          simp only [List.length_cons] at hk
          omega
        rw [List.length_eq_zero, List.filter_eq_nil_iff] at h0
        exact absurd (decide_eq_true_iff.mpr rfl) (h0 a ha)
      · intro k
        have hk := h k
        rw [List.filter_cons] at hk
        split at hk
        · simp only [List.length_cons] at hk
          omega
        · exact hk

lemma dupGrains_empty_iff (rows : List CogsRow) :
    (dupGrains rows).isEmpty = true ↔ (rows.map cogsGrain).Nodup := by
  rw [List.isEmpty_iff]
  unfold dupGrains
  rw [List.filter_eq_nil_iff, nodup_iff_filter_length_le_one]
  constructor
  · intro h k
    by_cases hk : k ∈ rows.map cogsGrain
    · have := h (k, ((rows.map cogsGrain).filter fun g => decide (g = k)).length)
        (List.mem_map.mpr ⟨k, List.mem_dedup.mpr hk, rfl⟩)
      simpa using this
    · have h0 : ((rows.map cogsGrain).filter fun g => decide (g = k)) = [] := by
        rw [List.filter_eq_nil_iff]
        intro g hg
        simp only [decide_eq_true_iff]
        exact fun he => hk (he ▸ hg)
      rw [h0]
      simp
  · intro h kc hkc
    obtain ⟨k, hkd, rfl⟩ := List.mem_map.mp hkc
    simpa using h k

lemma cogsRows_grains (dateToPeriod periodEnd : ℕ → ℕ) (ships : List ShipmentRow)
    (rets : List ReturnRow) (costs : List CostStructureRow) :
    (cogsRows dateToPeriod periodEnd ships rets costs).map cogsGrain =
      (shippedAgg dateToPeriod ships).map Prod.fst := by
  unfold cogsRows shippedNet
  rw [List.map_map, List.map_map]
  apply List.map_congr_left
  intro s _
  simp [cogsGrain]

/-- Claim C6: the COGS as-of join keeps its output grain 1:1 at
`(period, item_id, channel_store_id)` — cost components are
pre-aggregated per `(item_id, effective_from)` before the as-of join, so
for any cost table (including N components per key) the build succeeds
and emits exactly M output rows, M being the number of `shipped_net`
grain rows, never N×M; and the duplicate-grain check that makes
`build_mart_pnl_cogs` raise instead of writing fires exactly when the
output grain has a duplicate. -/
theorem cogs_asof_grain_stable :
    (∀ (dateToPeriod periodEnd : ℕ → ℕ) (ships : List ShipmentRow)
        (rets : List ReturnRow) (costs : List CostStructureRow),
      build_mart_pnl_cogs dateToPeriod periodEnd ships rets costs =
        .ok (cogsRows dateToPeriod periodEnd ships rets costs) ∧
      (cogsRows dateToPeriod periodEnd ships rets costs).length =
        (shippedNet dateToPeriod ships rets).length) ∧
    (∀ rows : List CogsRow,
      (dupGrains rows).isEmpty = true ↔ (rows.map cogsGrain).Nodup) := by
  constructor
  · intro dateToPeriod periodEnd ships rets costs
    have hnod : ((cogsRows dateToPeriod periodEnd ships rets costs).map cogsGrain).Nodup := by
      rw [cogsRows_grains]
      exact groupSum_keys_nodup _ _ _
    constructor
    · unfold build_mart_pnl_cogs
      by_cases hemp : (cogsRows dateToPeriod periodEnd ships rets costs).isEmpty
      · rw [if_pos hemp, List.isEmpty_iff.mp hemp]
      · rw [if_neg hemp, if_pos ((dupGrains_empty_iff _).mpr hnod)]
    · unfold cogsRows
      rw [List.length_map]
  · exact dupGrains_empty_iff

end Auto
